import Mathlib

/-!
Shallow embedding of the inference worker of `src/main.py` (DeepSpeech +
PySide2 streaming transcription demo).

The embedded part is `InferenceThread.run` (lines 44-73): the one-time engine
setup (`Model(...)` / `enableDecoderWithLM(...)`), and the command loop over
the queue that drives the stream state machine with commands
`('start',)`, `('data', bytes)`, `('finish',)`.

Modelling decisions, each justified by the source:
  - An audio chunk is the decoded sample list (`np.frombuffer(..., np.int16)`
    applied to the queued bytes); the worker forwards it unchanged, so we
    carry the samples directly.
  - The engine is modelled by its observable call trace (`Event`).  A stream
    handle is a natural number; `model.setupStream()` hands out a fresh one.
  - `model.finishStream(stream)` with `stream = None` (the `'finish'` branch
    runs unconditionally, line 71) raises in the Python binding; the step
    function returns `Except.error EngineError.nullStreamFinish` there, and
    `run` propagates the error exactly as an uncaught Python exception
    terminates the thread.
  - `model.finishStream(s)` on a live handle returns the transcript; a
    deterministic engine is a parameter `f : List Chunk → String` applied to
    the exact sequence of chunks fed to that handle.
  - The `while True` loop with `self._in_queue.get(timeout=0.3)` is `loop`:
    one fuel unit is one loop iteration (one poll interval); on an empty
    queue it exits iff the quit flag is set, otherwise it polls again.
-/

/-- Decoded 16-bit samples of one audio chunk. -/
abbrev Chunk := List Int

/-- The commands the worker pops from its queue: the tagged tuples
`('start',)`, `('data', chunk)`, `('finish',)`, and any tuple whose tag
matches none of the three `if`/`elif` branches. -/
inductive Cmd where
  | start
  | data (chunk : Chunk)
  | finish
  | other (tag : String)
deriving Repr, DecidableEq

/-- Observable engine calls and signal emissions of the worker, in
chronological order. -/
inductive Event where
  | setupStream (h : Nat)
  | feedAudioContent (h : Nat) (chunk : Chunk)
  | finishStream (h : Nat)
  | emit (transcript : String)
deriving Repr, DecidableEq

/-- The failure of `model.finishStream(None)`: the binding rejects a null
stream handle, raising out of the worker loop. -/
inductive EngineError where
  | nullStreamFinish
deriving Repr, DecidableEq

/-- Worker-loop state: the `stream` local variable (`None` or a live handle),
the engine's fresh-handle supply, and the trace of calls made so far. -/
structure Config where
  stream : Option Nat
  nextHandle : Nat
  events : List Event
deriving Repr, DecidableEq

/-- State at the top of the loop: `stream = None`, no calls made. -/
def init : Config := ⟨none, 0, []⟩

/-- The chunks fed to handle `h` so far, in feed order. -/
def fedChunks (h : Nat) (evs : List Event) : List Chunk :=
  evs.filterMap fun e =>
    match e with
    | .feedAudioContent h' ch => if h' = h then some ch else none
    | _ => none

/-- One pass of the command dispatch (`if cmd == 'start': ... elif ...`,
lines 62-73), parametrised by the deterministic engine `f` that
`finishStream` applies to the fed chunks of the finished handle. -/
def step (f : List Chunk → String) (c : Config) : Cmd → Except EngineError Config
  | .start =>
    .ok { stream := some c.nextHandle, nextHandle := c.nextHandle + 1,
          events := c.events ++ [.setupStream c.nextHandle] }
  | .data chunk =>
    match c.stream with
    | some h => .ok { c with events := c.events ++ [.feedAudioContent h chunk] }
    | none => .ok c
  | .finish =>
    match c.stream with
    | some h =>
      .ok { stream := none, nextHandle := c.nextHandle,
            events := c.events ++
              [.finishStream h, .emit (f (fedChunks h c.events))] }
    | none => .error .nullStreamFinish
  | .other _ => .ok c

/-- Processing a command sequence: the loop body applied to each command in
queue order, stopping at the first uncaught engine failure (which kills the
worker thread in the source). -/
def run (f : List Chunk → String) (c : Config) : List Cmd → Except EngineError Config
  | [] => .ok c
  | cmd :: rest =>
    match step f c cmd with
    | .ok c' => run f c' rest
    | .error e => .error e

/-- The `while True` loop (lines 49-73) with a static queue snapshot: each
fuel unit is one `get(timeout=0.3)` poll.  A poll either pops the next
command and dispatches it, or times out on the empty queue, exiting iff
`_should_quit` is set.  `none` means the loop is still running after that
many polls. -/
def loop (f : List Chunk → String) (quit : Bool) :
    Nat → Config → List Cmd → Option (Except EngineError Config)
  | 0, _, _ => none
  | _ + 1, c, [] => if quit then some (.ok c) else none
  | fuel + 1, c, cmd :: rest =>
    match step f c cmd with
    | .ok c' => loop f quit fuel c' rest
    | .error e => some (.error e)

/-- The command sequence of one clean stream span:
`Start, AudioChunk c1, ..., AudioChunk cn, Finish`. -/
def spanCmds (chunks : List Chunk) : List Cmd :=
  Cmd.start :: (chunks.map Cmd.data ++ [Cmd.finish])

/-- All chunks passed to `feedAudioContent`, in call order. -/
def feedEvents (evs : List Event) : List Chunk :=
  evs.filterMap fun e =>
    match e with
    | .feedAudioContent _ ch => some ch
    | _ => none

/-- All transcripts emitted through the `finished` signal, in order. -/
def emitEvents (evs : List Event) : List String :=
  evs.filterMap fun e =>
    match e with
    | .emit t => some t
    | _ => none

/-- Handles returned by `setupStream`, in creation order. -/
def createdHandles (evs : List Event) : List Nat :=
  evs.filterMap fun e =>
    match e with
    | .setupStream h => some h
    | _ => none

/-- Handles passed to `finishStream`, in call order. -/
def finishedHandles (evs : List Event) : List Nat :=
  evs.filterMap fun e =>
    match e with
    | .finishStream h => some h
    | _ => none

/-- Handles created by `setupStream` and never consumed by `finishStream`:
the engine streams still alive. -/
def liveHandles (evs : List Event) : List Nat :=
  (createdHandles evs).filter fun h => !((finishedHandles evs).contains h)

/-- The events after the first `finishStream` call, if any. -/
def afterFirstFinishCall : List Event → List Event
  | [] => []
  | .finishStream _ :: r => r
  | _ :: r => afterFirstFinishCall r

/-- Number of live engine streams after processing `cmds` from startup,
or `none` if the worker crashed. -/
def liveCountAfter (f : List Chunk → String) (cmds : List Cmd) : Option Nat :=
  match run f init cmds with
  | .ok c => some (liveHandles c.events).length
  | .error _ => none

/-- `noNestedStart b cmds` checks that, starting from streaming-state `b`,
no `start` command is processed while a stream is already live. -/
def noNestedStart : Bool → List Cmd → Bool
  | b, .start :: r => !b && noNestedStart true r
  | _, .finish :: r => noNestedStart false r
  | b, _ :: r => noNestedStart b r
  | _, [] => true

/-- Engine construction calls at worker startup (lines 44-46 of the source):
`Model(model, N_FEATURES, N_CONTEXT, alphabet, BEAM_WIDTH)` followed by
`enableDecoderWithLM(alphabet, lmbin, trie, LM_ALPHA, LM_BETA)`. -/
inductive SetupEvent where
  | modelCtor (modelPath : String) (nFeatures nContext : Nat)
      (alphabet : String) (beamWidth : Nat)
  | enableDecoderWithLM (alphabet : String) (lmbin trie : Option String)
      (alpha beta : ℚ)
deriving Repr, DecidableEq

def N_FEATURES : Nat := 26

def N_CONTEXT : Nat := 9

def BEAM_WIDTH : Nat := 500

def LM_ALPHA : ℚ := 0.75

def LM_BETA : ℚ := 1.85

/-- Lines 45-46 of the source, exactly as written: the language-model enable
call is made unconditionally, whatever `lmbin` and `trie` hold (`None`
included). -/
def engineSetup (modelPath alphabet : String) (lmbin trie : Option String) :
    List SetupEvent :=
  [ .modelCtor modelPath N_FEATURES N_CONTEXT alphabet BEAM_WIDTH,
    .enableDecoderWithLM alphabet lmbin trie LM_ALPHA LM_BETA ]

/-- A concrete deterministic engine used by witnesses: the transcript is the
decimal chunk count. -/
def f0 : List Chunk → String := fun l => toString l.length

/-! ### Trace lemmas -/

theorem run_append (f : List Chunk → String) (c : Config) (l1 l2 : List Cmd) :
    run f c (l1 ++ l2) =
      match run f c l1 with
      | .ok c' => run f c' l2
      | .error e => .error e := by
  induction l1 generalizing c with
  | nil => simp [run]
  | cons cmd rest ih =>
    simp only [List.cons_append, run]
    cases step f c cmd with
    | ok c' => exact ih c'
    | error e => rfl

theorem run_data_chunks (f : List Chunk → String) (c : Config) (h : Nat)
    (hs : c.stream = some h) (chunks : List Chunk) :
    run f c (chunks.map Cmd.data) =
      .ok { c with events := c.events ++ chunks.map (Event.feedAudioContent h) } := by
  induction chunks generalizing c with
  | nil => simp [run]
  | cons ch rest ih =>
    simp only [List.map_cons, run, step, hs]
    rw [ih _ (by simp [hs])]
    simp

theorem fedChunks_append (h : Nat) (l1 l2 : List Event) :
    fedChunks h (l1 ++ l2) = fedChunks h l1 ++ fedChunks h l2 := by
  simp [fedChunks]

theorem fedChunks_map_feed_self (h : Nat) (chunks : List Chunk) :
    fedChunks h (chunks.map (Event.feedAudioContent h)) = chunks := by
  induction chunks with
  | nil => rfl
  | cons ch rest ih => simp [fedChunks, List.filterMap] at ih ⊢; exact ih

theorem fedChunks_map_feed_ne (h h' : Nat) (hne : h' ≠ h) (chunks : List Chunk) :
    fedChunks h (chunks.map (Event.feedAudioContent h')) = [] := by
  induction chunks with
  | nil => rfl
  | cons ch rest ih =>
    simp only [List.map_cons, fedChunks, List.filterMap] at ih ⊢
    simp only [if_neg hne]
    exact ih

theorem run_span (f : List Chunk → String) (c : Config) (chunks : List Chunk)
    (hfresh : fedChunks c.nextHandle c.events = []) :
    run f c (spanCmds chunks) =
      .ok { stream := none, nextHandle := c.nextHandle + 1,
            events := c.events ++
              (Event.setupStream c.nextHandle ::
                (chunks.map (Event.feedAudioContent c.nextHandle) ++
                  [Event.finishStream c.nextHandle, Event.emit (f chunks)])) } := by
  simp only [spanCmds, run, step]
  rw [run_append]
  rw [run_data_chunks f _ c.nextHandle rfl chunks]
  simp only [run, step, fedChunks_append, hfresh,
    fedChunks_map_feed_self]
  simp [fedChunks]

/-! ### Claims settled directly by evaluation or a one-step argument -/

/-- Claim C2 (code bug): processing `Finish` while no stream is active must
not crash the worker loop.  The code takes the `'finish'` branch with
`stream = None` and calls `model.finishStream(None)`, which raises: the run
ends in an uncaught engine error instead of continuing. -/
theorem idle_finish_crashes :
    run f0 init [Cmd.finish] = .error EngineError.nullStreamFinish := rfl

/-- Claim C3 (code bug): an engine-call failure is supposed to be caught at
the worker boundary, with the worker back in `Idle` and the loop alive.  The
loop body has no handler: the failing `finishStream(None)` call propagates,
the run ends in an error, and the subsequent `Start` command is never
processed (no `setupStream` call can appear after the error). -/
theorem engine_failure_uncaught :
    run f0 init [Cmd.finish, Cmd.start] = .error EngineError.nullStreamFinish := rfl

/-- Claim C4: an `AudioChunk` processed while `Idle` is dropped without
effect: the `if stream:` guard skips the feed, so the engine is not called,
nothing is emitted, no error is raised and the state is unchanged. -/
theorem idle_data_dropped (f : List Chunk → String) (c : Config) (chunk : Chunk)
    (h : c.stream = none) : step f c (Cmd.data chunk) = .ok c := by
  simp [step, h]

/-- Witness for `idle_data_dropped` at the startup state and a concrete
chunk. -/
theorem idle_data_dropped_witness :
    init.stream = none ∧ step f0 init (Cmd.data [7]) = .ok init :=
  ⟨rfl, idle_data_dropped f0 init [7] rfl⟩

/-- Claim C8 (code bug): language-model decoding is supposed to be enabled
only when the optional `lmbin` and `trie` paths are provided.  Line 46 calls
`enableDecoderWithLM` unconditionally: even with both paths absent (`None`),
the setup trace contains the enable call, with weights α = 0.75, β = 1.85. -/
theorem lm_enabled_unconditionally :
    SetupEvent.enableDecoderWithLM "a" none none LM_ALPHA LM_BETA ∈
      engineSetup "m" "a" none none := by
  simp [engineSetup]

/-- Claim C10: a command whose tag is none of `'start'`, `'data'`,
`'finish'` falls through every branch of the dispatch: it is consumed, no
engine call is made, nothing is emitted, and the configuration (stream state
and trace included) is unchanged. -/
theorem unknown_cmd_noop (f : List Chunk → String) (c : Config) (t : String)
    (rest : List Cmd) :
    step f c (Cmd.other t) = .ok c ∧
      run f c (Cmd.other t :: rest) = run f c rest := ⟨rfl, rfl⟩

/-- Counterexample to claim C5 as stated: processing `Start` while already
`Streaming` calls `setupStream` again without finishing the previous stream,
so after `[Start, Start]` two created-and-unfinished stream handles exist. -/
theorem double_start_two_live :
    liveCountAfter f0 [Cmd.start, Cmd.start] = some 2 := rfl

/-- Counterexample to claim C7 as stated: shutdown requested with
`[Start, Finish, Finish, Start]` still queued.  The third command hits the
`finishStream(None)` failure, the loop exits with an error before the queue
is empty, and the final `Start` is never processed — the drain guarantee
fails whenever processing a queued command crashes. -/
theorem loop_crash_not_drained :
    loop f0 true 5 init [Cmd.start, Cmd.finish, Cmd.finish, Cmd.start] =
      some (.error EngineError.nullStreamFinish) := rfl

/-! ### Projection lemmas for span traces -/

theorem feedEvents_append (l1 l2 : List Event) :
    feedEvents (l1 ++ l2) = feedEvents l1 ++ feedEvents l2 := by
  simp [feedEvents]

theorem emitEvents_append (l1 l2 : List Event) :
    emitEvents (l1 ++ l2) = emitEvents l1 ++ emitEvents l2 := by
  simp [emitEvents]

theorem feedEvents_map_feed (h : Nat) (chunks : List Chunk) :
    feedEvents (chunks.map (Event.feedAudioContent h)) = chunks := by
  induction chunks with
  | nil => rfl
  | cons ch rest ih => simp only [List.map_cons, feedEvents, List.filterMap] at ih ⊢; rw [ih]

theorem emitEvents_map_feed (h : Nat) (chunks : List Chunk) :
    emitEvents (chunks.map (Event.feedAudioContent h)) = [] := by
  induction chunks with
  | nil => rfl
  | cons ch rest ih => simp only [List.map_cons, emitEvents, List.filterMap] at ih ⊢; exact ih

theorem afterFirstFinishCall_map_feed (h : Nat) (chunks : List Chunk) (l : List Event) :
    afterFirstFinishCall (chunks.map (Event.feedAudioContent h) ++ l) =
      afterFirstFinishCall l := by
  induction chunks with
  | nil => rfl
  | cons ch rest ih => simpa [afterFirstFinishCall] using ih

/-- The worker trace of one clean span processed from startup. -/
theorem run_span_init (f : List Chunk → String) (chunks : List Chunk) :
    run f init (spanCmds chunks) =
      .ok { stream := none, nextHandle := 1,
            events := Event.setupStream 0 ::
              (chunks.map (Event.feedAudioContent 0) ++
                [Event.finishStream 0, Event.emit (f chunks)]) } := by
  have := run_span f init chunks rfl
  simpa [init] using this

/-! ### Claims about clean spans -/

/-- Claim C1: for a span `Start, AudioChunk c1, ..., AudioChunk cn, Finish`
processed from `Idle`, the engine is fed exactly the chunks `c1..cn`, once
each, in that order, and no feed call happens at or after the `finishStream`
call. -/
theorem span_feeds_in_order (f : List Chunk → String) (chunks : List Chunk)
    (c' : Config) (h : run f init (spanCmds chunks) = .ok c') :
    feedEvents c'.events = chunks ∧
      feedEvents (afterFirstFinishCall c'.events) = [] := by
  rw [run_span_init] at h
  cases h
  constructor
  · show feedEvents ([Event.setupStream 0] ++
      (chunks.map (Event.feedAudioContent 0) ++
        [Event.finishStream 0, Event.emit (f chunks)])) = chunks
    rw [feedEvents_append, feedEvents_append, feedEvents_map_feed]
    simp [feedEvents, List.filterMap]
  · simp [afterFirstFinishCall, afterFirstFinishCall_map_feed, feedEvents]

/-- Witness for `span_feeds_in_order` on the two-chunk span. -/
theorem span_feeds_in_order_witness :
    run f0 init (spanCmds [[1], [2]]) =
        .ok ⟨none, 1, [Event.setupStream 0, Event.feedAudioContent 0 [1],
          Event.feedAudioContent 0 [2], Event.finishStream 0, Event.emit "2"]⟩ ∧
      (feedEvents [Event.setupStream 0, Event.feedAudioContent 0 [1],
          Event.feedAudioContent 0 [2], Event.finishStream 0, Event.emit "2"] = [[1], [2]] ∧
        feedEvents (afterFirstFinishCall [Event.setupStream 0,
          Event.feedAudioContent 0 [1], Event.feedAudioContent 0 [2],
          Event.finishStream 0, Event.emit "2"]) = []) :=
  ⟨rfl, span_feeds_in_order f0 [[1], [2]] _ rfl⟩

/-- Claim C6: a span completed by a `Finish` arriving while `Streaming`
emits exactly one transcript signal, carrying the engine's `finishStream`
result for the chunks of that span. -/
theorem span_one_transcript (f : List Chunk → String) (chunks : List Chunk)
    (c' : Config) (h : run f init (spanCmds chunks) = .ok c') :
    emitEvents c'.events = [f chunks] := by
  rw [run_span_init] at h
  cases h
  simp [emitEvents, List.filterMap, emitEvents_append, emitEvents_map_feed]

/-- Witness for `span_one_transcript` on a one-chunk span. -/
theorem span_one_transcript_witness :
    run f0 init (spanCmds [[3, 4]]) =
        .ok ⟨none, 1, [Event.setupStream 0, Event.feedAudioContent 0 [3, 4],
          Event.finishStream 0, Event.emit "1"]⟩ ∧
      emitEvents [Event.setupStream 0, Event.feedAudioContent 0 [3, 4],
          Event.finishStream 0, Event.emit "1"] = ["1"] :=
  ⟨rfl, span_one_transcript f0 [[3, 4]] _ rfl⟩

theorem run_append_ok (f : List Chunk → String) (c : Config) (l1 l2 : List Cmd)
    (c1 : Config) (h1 : run f c l1 = .ok c1) :
    run f c (l1 ++ l2) = run f c1 l2 := by
  rw [run_append, h1]

theorem emitEvents_span_block (h : Nat) (chunks : List Chunk) (t : String) :
    emitEvents (Event.setupStream h ::
      (chunks.map (Event.feedAudioContent h) ++
        [Event.finishStream h, Event.emit t])) = [t] := by
  show emitEvents ([Event.setupStream h] ++
    (chunks.map (Event.feedAudioContent h) ++
      [Event.finishStream h, Event.emit t])) = [t]
  rw [emitEvents_append, emitEvents_append, emitEvents_map_feed]
  simp [emitEvents, List.filterMap]

/-- Claim C9: the engine is constructed once, so running the identical chunk
sequence through two separate spans feeds each span to its own fresh stream
and emits the same deterministic transcript twice. -/
theorem two_spans_equal_transcripts (f : List Chunk → String)
    (chunks : List Chunk) (c' : Config)
    (h : run f init (spanCmds chunks ++ spanCmds chunks) = .ok c') :
    emitEvents c'.events = [f chunks, f chunks] := by
  have h2 :
      run f { stream := none, nextHandle := 1,
              events := Event.setupStream 0 ::
                (chunks.map (Event.feedAudioContent 0) ++
                  [Event.finishStream 0, Event.emit (f chunks)]) }
          (spanCmds chunks) =
        .ok { stream := none, nextHandle := 2,
              events := (Event.setupStream 0 ::
                  (chunks.map (Event.feedAudioContent 0) ++
                    [Event.finishStream 0, Event.emit (f chunks)])) ++
                (Event.setupStream 1 ::
                  (chunks.map (Event.feedAudioContent 1) ++
                    [Event.finishStream 1, Event.emit (f chunks)])) } := by
    have hfresh : fedChunks 1
        (Event.setupStream 0 ::
          (chunks.map (Event.feedAudioContent 0) ++
            [Event.finishStream 0, Event.emit (f chunks)])) = [] := by
      show fedChunks 1 ([Event.setupStream 0] ++
        (chunks.map (Event.feedAudioContent 0) ++
          [Event.finishStream 0, Event.emit (f chunks)])) = []
      rw [fedChunks_append, fedChunks_append,
        fedChunks_map_feed_ne 1 0 (by decide)]
      simp [fedChunks, List.filterMap]
    exact run_span f ⟨none, 1, Event.setupStream 0 ::
      (chunks.map (Event.feedAudioContent 0) ++
        [Event.finishStream 0, Event.emit (f chunks)])⟩ chunks hfresh
  rw [run_append_ok f init (spanCmds chunks) (spanCmds chunks) _
    (run_span_init f chunks), h2] at h
  cases h
  show emitEvents ((Event.setupStream 0 ::
      (chunks.map (Event.feedAudioContent 0) ++
        [Event.finishStream 0, Event.emit (f chunks)])) ++
    (Event.setupStream 1 ::
      (chunks.map (Event.feedAudioContent 1) ++
        [Event.finishStream 1, Event.emit (f chunks)]))) = [f chunks, f chunks]
  rw [emitEvents_append, emitEvents_span_block, emitEvents_span_block]
  rfl

/-- Witness for `two_spans_equal_transcripts` on a two-chunk sequence. -/
theorem two_spans_equal_transcripts_witness :
    run f0 init (spanCmds [[1], [2]] ++ spanCmds [[1], [2]]) =
        .ok ⟨none, 2, [Event.setupStream 0, Event.feedAudioContent 0 [1],
          Event.feedAudioContent 0 [2], Event.finishStream 0, Event.emit "2",
          Event.setupStream 1, Event.feedAudioContent 1 [1],
          Event.feedAudioContent 1 [2], Event.finishStream 1, Event.emit "2"]⟩ ∧
      emitEvents [Event.setupStream 0, Event.feedAudioContent 0 [1],
        Event.feedAudioContent 0 [2], Event.finishStream 0, Event.emit "2",
        Event.setupStream 1, Event.feedAudioContent 1 [1],
        Event.feedAudioContent 1 [2], Event.finishStream 1, Event.emit "2"] =
        ["2", "2"] :=
  ⟨rfl, two_spans_equal_transcripts f0 [[1], [2]] _ rfl⟩

/-! ### Live-handle invariant -/

theorem createdHandles_append (l1 l2 : List Event) :
    createdHandles (l1 ++ l2) = createdHandles l1 ++ createdHandles l2 := by
  simp [createdHandles]

theorem finishedHandles_append (l1 l2 : List Event) :
    finishedHandles (l1 ++ l2) = finishedHandles l1 ++ finishedHandles l2 := by
  simp [finishedHandles]

theorem createdHandles_feed (h : Nat) (ch : Chunk) :
    createdHandles [Event.feedAudioContent h ch] = [] := rfl

theorem finishedHandles_feed (h : Nat) (ch : Chunk) :
    finishedHandles [Event.feedAudioContent h ch] = [] := rfl

/-- The strengthened invariant carried through the loop: every handle the
engine has handed out is below the fresh-handle counter, and the live
streams are exactly the one referenced by the `stream` variable (none when
`Idle`). -/
def Good (c : Config) : Prop :=
  (∀ h ∈ createdHandles c.events, h < c.nextHandle) ∧
  (∀ h ∈ finishedHandles c.events, h < c.nextHandle) ∧
  (∀ h, c.stream = some h → h < c.nextHandle) ∧
  (match c.stream with
   | some h => liveHandles c.events = [h]
   | none => liveHandles c.events = [])

theorem good_init : Good init := by
  refine ⟨?_, ?_, ?_, ?_⟩ <;>
    simp [init, createdHandles, finishedHandles, liveHandles]

theorem run_good (f : List Chunk → String) (cmds : List Cmd) :
    ∀ c : Config, Good c → noNestedStart c.stream.isSome cmds = true →
      ∀ c' : Config, run f c cmds = .ok c' → Good c' := by
  induction cmds with
  | nil =>
    intro c hg _ c' h
    simp only [run] at h
    cases h
    exact hg
  | cons cmd rest ih =>
    intro c hg hn c' h
    obtain ⟨hc, hf, hs, hlive⟩ := hg
    cases cmd with
    | start =>
      simp only [noNestedStart, Bool.and_eq_true, Bool.not_eq_true'] at hn
      obtain ⟨hb, hn⟩ := hn
      have hcs : c.stream = none := Option.not_isSome_iff_eq_none.mp (by simp [hb])
      rw [hcs] at hlive
      simp only [run, step] at h
      refine ih _ ⟨?_, ?_, ?_, ?_⟩ (by simpa using hn) c' h
      · intro x hx
        rw [createdHandles_append] at hx
        rcases List.mem_append.mp hx with hx | hx
        · exact Nat.lt_succ_of_lt (hc x hx)
        · simp [createdHandles] at hx
          simp [hx]
      · intro x hx
        rw [finishedHandles_append] at hx
        rcases List.mem_append.mp hx with hx | hx
        · exact Nat.lt_succ_of_lt (hf x hx)
        · simp [finishedHandles] at hx
      · intro x hx
        simp only at hx
        cases hx
        exact Nat.lt_succ_self _
      · simp only
        unfold liveHandles
        rw [createdHandles_append, finishedHandles_append]
        have h1 : createdHandles [Event.setupStream c.nextHandle] = [c.nextHandle] := rfl
        have h2 : finishedHandles [Event.setupStream c.nextHandle] = [] := rfl
        rw [h1, h2, List.append_nil, List.filter_append]
        have h3 : (createdHandles c.events).filter
            (fun x => !((finishedHandles c.events).contains x)) = [] := by
          simpa [liveHandles] using hlive
        rw [h3]
        have h5 : c.nextHandle ∉ finishedHandles c.events := fun hm =>
          absurd (hf _ hm) (Nat.lt_irrefl _)
        simp [List.filter, h5]
    | data chunk =>
      simp only [noNestedStart] at hn
      cases hcs : c.stream with
      | none =>
        simp only [run, step, hcs] at h
        exact ih _ ⟨hc, hf, hs, hlive⟩ (by simpa [hcs] using hn) c' h
      | some hh =>
        simp only [run, step, hcs] at h
        refine ih _ ⟨?_, ?_, ?_, ?_⟩ (by simpa [hcs] using hn) c' h
        · intro x hx
          rw [createdHandles_append, createdHandles_feed, List.append_nil] at hx
          exact hc x hx
        · intro x hx
          rw [finishedHandles_append, finishedHandles_feed, List.append_nil] at hx
          exact hf x hx
        · intro x hx
          simp only at hx
          cases hx
          exact hs hh hcs
        · simp only [hcs] at hlive ⊢
          unfold liveHandles at hlive ⊢
          rw [createdHandles_append, finishedHandles_append, createdHandles_feed,
            finishedHandles_feed, List.append_nil, List.append_nil]
          exact hlive
    | finish =>
      simp only [noNestedStart] at hn
      cases hcs : c.stream with
      | none =>
        simp only [run, step, hcs] at h
        cases h
      | some hh =>
        simp only [run, step, hcs] at h
        rw [hcs] at hlive
        refine ih _ ⟨?_, ?_, ?_, ?_⟩ (by simpa using hn) c' h
        · intro x hx
          rw [createdHandles_append] at hx
          rcases List.mem_append.mp hx with hx | hx
          · exact hc x hx
          · simp [createdHandles] at hx
        · intro x hx
          rw [finishedHandles_append] at hx
          rcases List.mem_append.mp hx with hx | hx
          · exact hf x hx
          · have hx' : x = hh := by
              simpa [finishedHandles] using hx
            cases hx'
            exact hs hh hcs
        · intro x hx
          simp only at hx
          cases hx
        · simp only
          unfold liveHandles
          rw [createdHandles_append, finishedHandles_append]
          have h1 : createdHandles
              [Event.finishStream hh, Event.emit (f (fedChunks hh c.events))] = [] := rfl
          have h2 : finishedHandles
              [Event.finishStream hh, Event.emit (f (fedChunks hh c.events))] = [hh] := rfl
          rw [h1, h2, List.append_nil]
          rw [List.filter_eq_nil_iff]
          intro x hx hcon
          have hnm : x ∉ finishedHandles c.events ++ [hh] := by
            intro hm
            rw [show (finishedHandles c.events ++ [hh]).contains x = true from
              List.elem_iff.mpr hm] at hcon
            simp at hcon
          have hx1 : x ∉ finishedHandles c.events :=
            fun hm => hnm (List.mem_append.mpr (Or.inl hm))
          have hx2 : x ≠ hh := fun he =>
            hnm (List.mem_append.mpr (Or.inr (by simp [he])))
          have hlv : x ∈ liveHandles c.events := by
            unfold liveHandles
            rw [List.mem_filter]
            refine ⟨hx, ?_⟩
            have hcf : (finishedHandles c.events).contains x = false := by
              cases hcc : (finishedHandles c.events).contains x
              · rfl
              · exact absurd (List.elem_iff.mp
                  (show (finishedHandles c.events).elem x = true from hcc)) hx1
            rw [hcf]
            rfl
          rw [hlive] at hlv
          exact hx2 (by simpa using hlv)
    | other tag =>
      simp only [noNestedStart] at hn
      simp only [run, step] at h
      exact ih _ ⟨hc, hf, hs, hlive⟩ hn c' h

/-- Claim C5 (amended): the worker variable holds at most one handle, and as
long as no `Start` is processed while already `Streaming`, at most one
created-but-unfinished engine stream exists at any time.  (The unrestricted
claim fails: see the nested-`Start` counterexample.) -/
theorem single_live_handle (f : List Chunk → String) (cmds : List Cmd)
    (c' : Config) (hn : noNestedStart false cmds = true)
    (h : run f init cmds = .ok c') :
    (liveHandles c'.events).length ≤ 1 := by
  have hg := run_good f cmds init good_init (by simpa [init] using hn) c' h
  obtain ⟨-, -, -, hlive⟩ := hg
  cases hcs : c'.stream with
  | none => rw [hcs] at hlive; simp only at hlive; simp [hlive]
  | some hh => rw [hcs] at hlive; simp only at hlive; simp [hlive]

/-- Witness for `single_live_handle` on the span `Start, Finish`. -/
theorem single_live_handle_witness :
    noNestedStart false [Cmd.start, Cmd.finish] = true ∧
      run f0 init [Cmd.start, Cmd.finish] =
        .ok ⟨none, 1, [Event.setupStream 0, Event.finishStream 0, Event.emit "0"]⟩ ∧
      (liveHandles [Event.setupStream 0, Event.finishStream 0,
        Event.emit "0"]).length ≤ 1 :=
  ⟨rfl, rfl, single_live_handle f0 [Cmd.start, Cmd.finish] _ rfl rfl⟩

/-- Claim C7 (amended): with shutdown requested and assuming no engine call
fails while draining, every queued command is processed (the final state is
exactly the `run` of the whole queue) and the loop exits at the first poll
that observes the queue empty — after `length + 1` polls, never earlier.
(Unconditionally the claim fails: see the crashing-drain counterexample.) -/
theorem drain_then_stop (f : List Chunk → String) (c : Config)
    (cmds : List Cmd) (c' : Config) (h : run f c cmds = .ok c') :
    loop f true (cmds.length + 1) c cmds = some (.ok c') ∧
      loop f true cmds.length c cmds = none := by
  induction cmds generalizing c with
  | nil =>
    simp only [run] at h
    cases h
    exact ⟨rfl, rfl⟩
  | cons cmd rest ih =>
    simp only [run] at h
    cases hst : step f c cmd with
    | ok c1 =>
      rw [hst] at h
      have hrec := ih c1 h
      constructor
      · simp only [List.length_cons, loop, hst]
        exact hrec.1
      · simp only [List.length_cons, loop, hst]
        exact hrec.2
    | error e =>
      rw [hst] at h
      cases h

/-- Witness for `drain_then_stop` on a three-command queue. -/
theorem drain_then_stop_witness :
    run f0 init [Cmd.start, Cmd.data [5], Cmd.finish] =
        .ok ⟨none, 1, [Event.setupStream 0, Event.feedAudioContent 0 [5],
          Event.finishStream 0, Event.emit "1"]⟩ ∧
      (loop f0 true 4 init [Cmd.start, Cmd.data [5], Cmd.finish] =
          some (.ok ⟨none, 1, [Event.setupStream 0, Event.feedAudioContent 0 [5],
            Event.finishStream 0, Event.emit "1"]⟩) ∧
        loop f0 true 3 init [Cmd.start, Cmd.data [5], Cmd.finish] = none) :=
  ⟨rfl, drain_then_stop f0 init [Cmd.start, Cmd.data [5], Cmd.finish] _ rfl⟩
